import Mathlib

/-!
Shallow embedding of the ecommerce backend's checkout/order engine and cart
operations (src/controllers/orderController.js, src/controllers/cartController.js,
src/models/Product.js), with theorems settling the spec's claims about them.

JS numbers holding money are modelled as rationals; identifiers as naturals;
the document store as association lists keyed by id.  Each controller is a
pure function from a database state (plus the authenticated caller) to a
result together with the successor state.  Awaited writes in the checkout
commit sequence are modelled with an explicit failure-injection parameter:
the JS runtime applies the writes one at a time, and an exception thrown by
the k-th write leaves the earlier writes applied (the catch block only
forwards the error).
-/

namespace ECom

abbrev ProductId := Nat
abbrev UserId := Nat
abbrev OrderId := Nat

/-- Product document (src/models/Product.js): the fields the controllers read.
Stock is an `Int` because the store's `$inc` update is plain arithmetic with
no floor. -/
structure Product where
  name : String
  price : ℚ
  stock : Int
  isActive : Bool
  images : List String
deriving DecidableEq, Repr

/-- Cart line item: product reference, quantity, price captured at add time. -/
structure CartItem where
  product : ProductId
  quantity : Nat
  price : ℚ
deriving DecidableEq, Repr

/-- Cart document: the user's line items. -/
structure Cart where
  items : List CartItem
deriving DecidableEq, Repr

/-- Modelled from the spec: `src/models/Order.js` is not in the source tree;
the spec fixes orderStatus as the enum Processing/Shipped/Delivered/Cancelled. -/
inductive OrderStatus
  | Processing | Shipped | Delivered | Cancelled
deriving DecidableEq, Repr

/-- Modelled from the spec: `src/models/Order.js` is not in the source tree;
the spec fixes paymentStatus as the enum Pending/Paid/Refunded. -/
inductive PaymentStatus
  | Pending | Paid | Refunded
deriving DecidableEq, Repr

/-- Order line-item snapshot, copied from the cart at checkout
(orderController.js lines 42-48). -/
structure OrderItem where
  product : ProductId
  name : String
  image : String
  price : ℚ
  quantity : Nat
deriving DecidableEq, Repr

/-- Order document: the fields the order controller reads and writes. -/
structure Order where
  user : UserId
  items : List OrderItem
  itemsPrice : ℚ
  shippingPrice : ℚ
  taxPrice : ℚ
  totalAmount : ℚ
  paymentStatus : PaymentStatus
  orderStatus : OrderStatus
  paidAt : Option Nat
  deliveredAt : Option Nat
  trackingNumber : Option String
  notes : Option String
deriving DecidableEq, Repr

/-- The document database: products, one cart per user, orders. -/
structure DB where
  products : List (ProductId × Product)
  carts : List (UserId × Cart)
  orders : List (OrderId × Order)
  nextOrderId : OrderId
deriving DecidableEq, Repr

/-- Errors surfaced by the controllers; each constructor corresponds to one
res.status(...) error response, carrying the data interpolated into its
message. `storage` models an exception thrown by an awaited store write
(forwarded by the catch block to the generic 500 handler). -/
inductive OpError
  | emptyCart
  | productUnavailable (name : String)
  | insufficientStock (name : String) (available : Int) (requested : Nat)
  | productNotFound
  | productInactive
  | stockLimit (available : Int)
  | mergeStockLimit (moreAvailable : Int)
  | cartNotFound
  | orderNotFound
  | forbidden
  | alreadyPaid
  | invalidTransition
  | storage
deriving DecidableEq, Repr

/-- `Product.findByIdAndUpdate(pid, [$inc stock delta])`: adjust the stock of
the product with the given id; a missing id is a no-op. -/
def incStock (db : DB) (pid : ProductId) (delta : Int) : DB :=
  { db with
    products := db.products.map
      (fun e => if e.1 = pid then (e.1, { e.2 with stock := e.2.stock + delta }) else e) }

/-- Replace (or lazily create) the cart of user `u`. -/
def setCart (db : DB) (u : UserId) (c : Cart) : DB :=
  if (db.carts.lookup u).isSome then
    { db with carts := db.carts.map (fun e => if e.1 = u then (e.1, c) else e) }
  else
    { db with carts := db.carts ++ [(u, c)] }

/-- Overwrite the stored order with id `oid` (the controllers' `order.save()`). -/
def setOrder (db : DB) (oid : OrderId) (o : Order) : DB :=
  { db with orders := db.orders.map (fun e => if e.1 = oid then (e.1, o) else e) }

/-- Modelled from the spec: `Cart.clearCart` lives in the missing
`src/models/Cart.js`; the spec says it removes all lines while the cart row
itself persists for reuse. -/
def clearCartOf (db : DB) (u : UserId) : DB :=
  if (db.carts.lookup u).isSome then
    { db with carts := db.carts.map (fun e => if e.1 = u then (e.1, ⟨[]⟩) else e) }
  else db

/-- The current stock of a product, `0` when the id is absent. -/
def stockOf (db : DB) (pid : ProductId) : Int :=
  ((db.products.lookup pid).map Product.stock).getD 0

/-- The items of user `u`'s cart, `[]` when the user has no cart row. -/
def cartItemsOf (db : DB) (u : UserId) : List CartItem :=
  ((db.carts.lookup u).map Cart.items).getD []

/-- The checkout validation loop (orderController.js lines 27-51): walk the
cart lines in order; the first line whose product is missing or inactive
aborts with the product-unavailable error, the first line whose quantity
exceeds current stock aborts with the insufficient-stock error (naming the
product with available and requested quantities); otherwise build the
line-item snapshots and accumulate itemsPrice from the catalog's current
prices. -/
def validateItems (db : DB) : List CartItem → Except OpError (List OrderItem × ℚ)
  | [] => .ok ([], 0)
  | item :: rest =>
    match db.products.lookup item.product with
    | none => .error (.productUnavailable "Unknown")
    | some p =>
      if p.isActive = false then .error (.productUnavailable p.name)
      else if p.stock < (item.quantity : Int) then
        .error (.insufficientStock p.name p.stock item.quantity)
      else
        match validateItems db rest with
        | .error e => .error e
        | .ok (ois, total) =>
          .ok (⟨item.product, p.name, p.images.headD "", p.price, item.quantity⟩ :: ois,
               p.price * (item.quantity : ℚ) + total)

/-- The order record createOrder persists (orderController.js lines 53-68):
shippingPrice is 0 over a 100 items total and a flat 10 otherwise, taxPrice
is 10 percent of the items total, totalAmount their sum; the new order
starts with paymentStatus Pending and orderStatus Processing (defaults
modelled from the spec, `src/models/Order.js` being absent from the tree). -/
def mkOrder (u : UserId) (ois : List OrderItem) (t : ℚ) : Order :=
  { user := u, items := ois, itemsPrice := t,
    shippingPrice := if t > 100 then 0 else 10,
    taxPrice := t * (1/10),
    totalAmount := t + (if t > 100 then (0 : ℚ) else 10) + t * (1/10),
    paymentStatus := .Pending, orderStatus := .Processing,
    paidAt := none, deliveredAt := none, trackingNumber := none, notes := none }

/-- The commit phase of createOrder (orderController.js lines 59-79) as the
list of awaited store writes, in program order: persist the order record,
then one stock decrement per cart line, then clear the cart. -/
def commitWrites (u : UserId) (oid : OrderId) (o : Order) (lines : List CartItem) :
    List (DB → DB) :=
  (fun db => { db with orders := db.orders ++ [(oid, o)], nextOrderId := oid + 1 })
    :: lines.map (fun item => fun db => incStock db item.product (-(item.quantity : Int)))
    ++ [fun db => clearCartOf db u]

/-- Apply a list of state updates in order. -/
def applyWrites (writes : List (DB → DB)) (db : DB) : DB :=
  writes.foldl (fun d f => f d) db

/-- createOrder (orderController.js lines 8-89).  `failAt = some k` injects a
storage exception thrown by the k-th awaited write of the commit phase
(0-indexed); the writes before it stay applied and the catch block forwards
the error with no compensation.  `failAt = none`, or an index past the last
write, is a failure-free run. -/
def createOrder (db : DB) (u : UserId) (failAt : Option Nat) :
    Except OpError Order × DB :=
  let items := cartItemsOf db u
  if items = [] then (.error .emptyCart, db)
  else
    match validateItems db items with
    | .error e => (.error e, db)
    | .ok (orderItems, totalAmount) =>
      let o : Order := mkOrder u orderItems totalAmount
      let writes := commitWrites u db.nextOrderId o items
      match failAt with
      | none => (.ok o, applyWrites writes db)
      | some k =>
        if k < writes.length then (.error .storage, applyWrites (writes.take k) db)
        else (.ok o, applyWrites writes db)

/-- cancelOrder (orderController.js lines 341-388).  The caller's admin flag
is part of the authenticated principal but the handler never reads it: only
the owner check at line 353 gates the operation. -/
def cancelOrder (db : DB) (caller : UserId) (_isAdmin : Bool) (oid : OrderId) :
    Except OpError Order × DB :=
  match db.orders.lookup oid with
  | none => (.error .orderNotFound, db)
  | some o =>
    if o.user ≠ caller then (.error .forbidden, db)
    else if o.orderStatus = .Delivered ∨ o.orderStatus = .Cancelled then
      (.error .invalidTransition, db)
    else
      let db1 := o.items.foldl
        (fun d item => incStock d item.product (item.quantity : Int)) db
      let o2 := { o with orderStatus := .Cancelled, paymentStatus := .Refunded }
      (.ok o2, setOrder db1 oid o2)

/-- updateOrderStatus (orderController.js lines 200-237): sets orderStatus to
the requested value with no transition check, optionally sets trackingNumber
and notes, and stamps deliveredAt when the new status is Delivered.  Admin
gating is done by route middleware before the handler runs. -/
def updateOrderStatus (db : DB) (oid : OrderId) (newStatus : OrderStatus)
    (trackingNumber notes : Option String) (now : Nat) :
    Except OpError Order × DB :=
  match db.orders.lookup oid with
  | none => (.error .orderNotFound, db)
  | some o =>
    let o1 :=
      { o with
        orderStatus := newStatus,
        trackingNumber := (trackingNumber.map some).getD o.trackingNumber,
        notes := (notes.map some).getD o.notes,
        deliveredAt := if newStatus = .Delivered then some now else o.deliveredAt }
    (.ok o1, setOrder db oid o1)

/-- updateOrderToPaid (orderController.js lines 157-195): owner or admin may
mark an order paid; a second attempt on a Paid order is rejected with the
already-paid error and changes nothing. -/
def updateOrderToPaid (db : DB) (caller : UserId) (isAdmin : Bool)
    (oid : OrderId) (now : Nat) : Except OpError Order × DB :=
  match db.orders.lookup oid with
  | none => (.error .orderNotFound, db)
  | some o =>
    if o.user ≠ caller ∧ isAdmin = false then (.error .forbidden, db)
    else if o.paymentStatus = .Paid then (.error .alreadyPaid, db)
    else
      let o1 := { o with paymentStatus := .Paid, paidAt := some now }
      (.ok o1, setOrder db oid o1)

/-- addToCart (cartController.js lines 39-108): validate the product (exists,
active, stock covers the requested quantity), then merge into the existing
line for that product if present — rejecting when the merged quantity would
exceed current stock — or push a new line capturing the current price. -/
def addToCart (db : DB) (u : UserId) (pid : ProductId) (q : Nat) :
    Except OpError Cart × DB :=
  match db.products.lookup pid with
  | none => (.error .productNotFound, db)
  | some p =>
    if p.isActive = false then (.error .productInactive, db)
    else if p.stock < (q : Int) then (.error (.stockLimit p.stock), db)
    else
      let cart := ((db.carts.lookup u).getD ⟨[]⟩)
      match cart.items.find? (fun it => it.product = pid) with
      | some existing =>
        let newQuantity := existing.quantity + q
        if (newQuantity : Int) > p.stock then
          (.error (.mergeStockLimit (p.stock - (existing.quantity : Int))), db)
        else
          let c2 : Cart :=
            ⟨cart.items.map
              (fun it => if it.product = pid then { it with quantity := newQuantity } else it)⟩
          (.ok c2, setCart db u c2)
      | none =>
        let c2 : Cart := ⟨cart.items ++ [⟨pid, q, p.price⟩]⟩
        (.ok c2, setCart db u c2)

/-- One validation-error record pushed by validateCart (cartController.js
lines 266-289), keeping the data each push interpolates. -/
inductive CartIssue
  | missing (productId : ProductId)
  | inactive (productId : ProductId) (productName : String)
  | clamped (productId : ProductId) (productName : String)
      (requestedQuantity : Nat) (availableQuantity : Int)
deriving DecidableEq, Repr

/-- The reconciliation loop of validateCart (cartController.js lines 264-298):
drop lines whose product is missing or inactive (reporting each), clamp a
quantity above current stock to the available stock (reporting requested and
available), and refresh every surviving line's price to the catalog's current
price. -/
def reconcileItems (db : DB) : List CartItem → List CartItem × List CartIssue
  | [] => ([], [])
  | item :: rest =>
    let (its, issues) := reconcileItems db rest
    match db.products.lookup item.product with
    | none => (its, .missing item.product :: issues)
    | some p =>
      if p.isActive = false then (its, .inactive item.product p.name :: issues)
      else if p.stock < (item.quantity : Int) then
        ({ item with quantity := p.stock.toNat, price := p.price } :: its,
         .clamped item.product p.name item.quantity p.stock :: issues)
      else ({ item with price := p.price } :: its, issues)

/-- validateCart (cartController.js lines 249-317): fails on a missing or
empty cart; otherwise runs the reconciliation pass, returns the corrected
cart with the validation-error list, and saves the corrected cart exactly
when the pass dropped a line or reported an error. -/
def validateCart (db : DB) (u : UserId) :
    Except OpError (Cart × List CartIssue) × DB :=
  match db.carts.lookup u with
  | none => (.error .emptyCart, db)
  | some cart =>
    if cart.items = [] then (.error .emptyCart, db)
    else
      let (updatedItems, issues) := reconcileItems db cart.items
      let c2 : Cart := ⟨updatedItems⟩
      let db2 :=
        if updatedItems.length ≠ cart.items.length ∨ issues ≠ [] then setCart db u c2
        else db
      (.ok (c2, issues), db2)

/-! ### Association-list and store-update lemmas -/

lemma lookup_cons_eq {β : Type} (k ek : Nat) (ev : β) (rest : List (Nat × β)) :
    List.lookup k ((ek, ev) :: rest) = if k = ek then some ev else rest.lookup k := by
  rw [List.lookup_cons]
  cases hbe : k == ek
  · rw [if_neg]
    intro h
    subst h
    simp at hbe
  · rw [if_pos (eq_of_beq hbe)]

lemma lookup_eq_none_of_not_mem {β : Type} (l : List (Nat × β)) (k : Nat)
    (h : k ∉ l.map Prod.fst) : l.lookup k = none := by
  induction l with
  | nil => simp
  | cons e rest ih =>
    simp only [List.map_cons, List.mem_cons] at h
    push_neg at h
    obtain ⟨ek, ev⟩ := e
    rw [lookup_cons_eq, if_neg h.1]
    exact ih h.2

lemma lookup_map_update {β : Type} (l : List (Nat × β)) (f : β → β) (k k' : Nat) :
    (l.map (fun e => if e.1 = k then (e.1, f e.2) else e)).lookup k' =
      (l.lookup k').map (fun v => if k' = k then f v else v) := by
  induction l with
  | nil => simp
  | cons e rest ih =>
    obtain ⟨ek, ev⟩ := e
    by_cases hek : ek = k
    · by_cases hk2 : k' = ek
      · simp [hek, hk2, lookup_cons_eq]
      · have hkk : ¬ k' = k := by rw [← hek]; exact hk2
        simp [hek, hk2, hkk, lookup_cons_eq, ih]
    · by_cases hk2 : k' = ek
      · have hkk : ¬ k' = k := by rw [hk2]; exact hek
        simp [hek, hk2, hkk, lookup_cons_eq]
      · simp [hek, hk2, lookup_cons_eq, ih]

lemma lookup_append_left {β : Type} (l1 l2 : List (Nat × β)) (k : Nat) (v : β)
    (h : l1.lookup k = some v) : (l1 ++ l2).lookup k = some v := by
  induction l1 with
  | nil => simp at h
  | cons e rest ih =>
    obtain ⟨ek, ev⟩ := e
    rw [lookup_cons_eq] at h
    rw [List.cons_append, lookup_cons_eq]
    by_cases hk : k = ek
    · rwa [if_pos hk] at h ⊢
    · rw [if_neg hk] at h ⊢
      exact ih h

lemma lookup_append_right {β : Type} (l1 l2 : List (Nat × β)) (k : Nat)
    (h : k ∉ l1.map Prod.fst) : (l1 ++ l2).lookup k = l2.lookup k := by
  induction l1 with
  | nil => simp
  | cons e rest ih =>
    simp only [List.map_cons, List.mem_cons] at h
    push_neg at h
    obtain ⟨ek, ev⟩ := e
    rw [List.cons_append, lookup_cons_eq, if_neg h.1]
    exact ih h.2

@[simp] lemma incStock_carts (db : DB) (pid : ProductId) (δ : Int) :
    (incStock db pid δ).carts = db.carts := rfl

@[simp] lemma incStock_orders (db : DB) (pid : ProductId) (δ : Int) :
    (incStock db pid δ).orders = db.orders := rfl

@[simp] lemma incStock_nextOrderId (db : DB) (pid : ProductId) (δ : Int) :
    (incStock db pid δ).nextOrderId = db.nextOrderId := rfl

lemma lookup_incStock (db : DB) (pid : ProductId) (δ : Int) (p' : ProductId) :
    (incStock db pid δ).products.lookup p' =
      (db.products.lookup p').map
        (fun p => if p' = pid then { p with stock := p.stock + δ } else p) :=
  lookup_map_update db.products (fun p => { p with stock := p.stock + δ }) pid p'

@[simp] lemma setCart_products (db : DB) (u : UserId) (c : Cart) :
    (setCart db u c).products = db.products := by
  unfold setCart; split <;> rfl

@[simp] lemma setCart_orders (db : DB) (u : UserId) (c : Cart) :
    (setCart db u c).orders = db.orders := by
  unfold setCart; split <;> rfl

lemma lookup_of_mem_keys {β : Type} (l : List (Nat × β)) (k : Nat)
    (h : k ∈ l.map Prod.fst) : (l.lookup k).isSome := by
  induction l with
  | nil => simp at h
  | cons e rest ih =>
    obtain ⟨ek, ev⟩ := e
    rw [lookup_cons_eq]
    by_cases hk : k = ek
    · simp [hk]
    · rw [if_neg hk]
      simp only [List.map_cons, List.mem_cons] at h
      exact ih (h.resolve_left hk)

lemma lookup_setCart_self (db : DB) (u : UserId) (c : Cart) :
    (setCart db u c).carts.lookup u = some c := by
  unfold setCart
  split
  · next h =>
    rw [lookup_map_update db.carts (fun _ => c) u u]
    obtain ⟨c0, hc0⟩ := Option.isSome_iff_exists.mp h
    simp [hc0]
  · next h =>
    rw [lookup_append_right]
    · rw [lookup_cons_eq, if_pos rfl]
    · intro hmem
      exact h (lookup_of_mem_keys db.carts u hmem)

@[simp] lemma setOrder_products (db : DB) (oid : OrderId) (o : Order) :
    (setOrder db oid o).products = db.products := rfl

@[simp] lemma setOrder_carts (db : DB) (oid : OrderId) (o : Order) :
    (setOrder db oid o).carts = db.carts := rfl

lemma lookup_setOrder (db : DB) (oid : OrderId) (o : Order) (k : OrderId) :
    (setOrder db oid o).orders.lookup k =
      (db.orders.lookup k).map (fun v => if k = oid then o else v) :=
  lookup_map_update db.orders (fun _ => o) oid k

@[simp] lemma clearCartOf_products (db : DB) (u : UserId) :
    (clearCartOf db u).products = db.products := by
  unfold clearCartOf; split <;> rfl

@[simp] lemma clearCartOf_orders (db : DB) (u : UserId) :
    (clearCartOf db u).orders = db.orders := by
  unfold clearCartOf; split <;> rfl

/-! ### Quantity bookkeeping for the stock folds -/

/-- The (product, quantity) signature of a cart line. -/
def CartItem.sig (it : CartItem) : ProductId × Nat := (it.product, it.quantity)

/-- The (product, quantity) signature of an order line. -/
def OrderItem.sig (it : OrderItem) : ProductId × Nat := (it.product, it.quantity)

/-- Total quantity a list of (product, quantity) pairs carries for `pid`. -/
def qtySum (pid : ProductId) : List (ProductId × Nat) → Int
  | [] => 0
  | e :: rest => (if e.1 = pid then (e.2 : Int) else 0) + qtySum pid rest

lemma qtySum_eq_zero_of_not_mem (pid : ProductId) (l : List (ProductId × Nat))
    (h : pid ∉ l.map Prod.fst) : qtySum pid l = 0 := by
  induction l with
  | nil => rfl
  | cons e rest ih =>
    simp only [List.map_cons, List.mem_cons] at h
    push_neg at h
    have h1 : ¬ e.1 = pid := fun hh => h.1 hh.symm
    simp [qtySum, h1, ih h.2]

lemma qtySum_of_mem_nodup (l : List (ProductId × Nat)) (e : ProductId × Nat)
    (he : e ∈ l) (hnd : (l.map Prod.fst).Nodup) : qtySum e.1 l = (e.2 : Int) := by
  induction l with
  | nil => simp at he
  | cons x rest ih =>
    simp only [List.map_cons, List.nodup_cons] at hnd
    rcases List.mem_cons.mp he with h1 | h2
    · subst h1
      have : e.1 ∉ rest.map Prod.fst := hnd.1
      simp [qtySum, qtySum_eq_zero_of_not_mem _ _ this]
    · have hx : ¬ x.1 = e.1 := by
        intro hh
        exact hnd.1 (hh ▸ List.mem_map.mpr ⟨e, h2, rfl⟩)
      simp [qtySum, hx, ih h2 hnd.2]

lemma lookup_decFold (lines : List CartItem) (db : DB) (pid : ProductId) :
    ((lines.foldl (fun d it => incStock d it.product (-(it.quantity : Int))) db).products.lookup
        pid) =
      (db.products.lookup pid).map
        (fun p => { p with stock := p.stock - qtySum pid (lines.map CartItem.sig) }) := by
  induction lines generalizing db with
  | nil =>
    cases h : db.products.lookup pid <;> simp [qtySum, h]
  | cons it rest ih =>
    simp only [List.foldl_cons, List.map_cons, qtySum, CartItem.sig]
    rw [ih, lookup_incStock]
    cases h : db.products.lookup pid with
    | none => simp
    | some p =>
      by_cases hpe : pid = it.product
      · subst hpe
        simp [Product.mk.injEq] <;> omega
      · have he : ¬ it.product = pid := fun hh => hpe hh.symm
        simp [hpe, he]

lemma lookup_incFold (items : List OrderItem) (db : DB) (pid : ProductId) :
    ((items.foldl (fun d it => incStock d it.product (it.quantity : Int)) db).products.lookup
        pid) =
      (db.products.lookup pid).map
        (fun p => { p with stock := p.stock + qtySum pid (items.map OrderItem.sig) }) := by
  induction items generalizing db with
  | nil =>
    cases h : db.products.lookup pid <;> simp [qtySum, h]
  | cons it rest ih =>
    simp only [List.foldl_cons, List.map_cons, qtySum, OrderItem.sig]
    rw [ih, lookup_incStock]
    cases h : db.products.lookup pid with
    | none => simp
    | some p =>
      by_cases hpe : pid = it.product
      · subst hpe
        simp [Product.mk.injEq] <;> omega
      · have he : ¬ it.product = pid := fun hh => hpe hh.symm
        simp [hpe, he]

lemma decFold_carts (lines : List CartItem) (db : DB) :
    (lines.foldl (fun d it => incStock d it.product (-(it.quantity : Int))) db).carts =
      db.carts := by
  induction lines generalizing db with
  | nil => rfl
  | cons it rest ih => simp [List.foldl_cons, ih]

lemma decFold_orders (lines : List CartItem) (db : DB) :
    (lines.foldl (fun d it => incStock d it.product (-(it.quantity : Int))) db).orders =
      db.orders := by
  induction lines generalizing db with
  | nil => rfl
  | cons it rest ih => simp [List.foldl_cons, ih]

lemma incFold_carts (items : List OrderItem) (db : DB) :
    (items.foldl (fun d it => incStock d it.product (it.quantity : Int)) db).carts =
      db.carts := by
  induction items generalizing db with
  | nil => rfl
  | cons it rest ih => simp [List.foldl_cons, ih]

lemma incFold_orders (items : List OrderItem) (db : DB) :
    (items.foldl (fun d it => incStock d it.product (it.quantity : Int)) db).orders =
      db.orders := by
  induction items generalizing db with
  | nil => rfl
  | cons it rest ih => simp [List.foldl_cons, ih]

/-! ### Properties of the checkout validation loop -/

/-- A cart line passes the checkout validation: its product exists, is
active, and has stock covering the quantity. -/
def lineOkB (db : DB) (it : CartItem) : Bool :=
  match db.products.lookup it.product with
  | none => false
  | some p => p.isActive && decide ((it.quantity : Int) ≤ p.stock)

/-- Current catalog price of a product, `0` when the id is absent. -/
def priceOf (db : DB) (pid : ProductId) : ℚ :=
  ((db.products.lookup pid).map Product.price).getD 0

/-- Items total at current catalog prices. -/
def itemsPriceOf (db : DB) : List CartItem → ℚ
  | [] => 0
  | it :: rest => priceOf db it.product * (it.quantity : ℚ) + itemsPriceOf db rest

lemma lineOkB_iff (db : DB) (it : CartItem) :
    lineOkB db it = true ↔
      ∃ p, db.products.lookup it.product = some p ∧ p.isActive = true ∧
        (it.quantity : Int) ≤ p.stock := by
  unfold lineOkB
  cases h : db.products.lookup it.product <;> simp [h]

lemma validateItems_cons_of_ok (db : DB) (it : CartItem) (l : List CartItem) (p : Product)
    (hp : db.products.lookup it.product = some p) (ha : p.isActive = true)
    (hs : (it.quantity : Int) ≤ p.stock) :
    validateItems db (it :: l) =
      match validateItems db l with
      | .error e => .error e
      | .ok (ois, total) =>
        .ok (⟨it.product, p.name, p.images.headD "", p.price, it.quantity⟩ :: ois,
             p.price * (it.quantity : ℚ) + total) := by
  have hns : ¬ p.stock < (it.quantity : Int) := not_lt.mpr hs
  simp [validateItems, hp, ha, hns]

lemma validateItems_ok_spec (db : DB) (l : List CartItem) (ois : List OrderItem) (t : ℚ)
    (h : validateItems db l = .ok (ois, t)) :
    ois.map OrderItem.sig = l.map CartItem.sig ∧
    t = itemsPriceOf db l ∧
    ∀ it ∈ l, lineOkB db it = true := by
  induction l generalizing ois t with
  | nil =>
    simp only [validateItems, Except.ok.injEq, Prod.mk.injEq] at h
    simp [← h.1, ← h.2, itemsPriceOf]
  | cons it rest ih =>
    rcases hlk : db.products.lookup it.product with _ | p
    · simp [validateItems, hlk] at h
    · rcases hact : p.isActive with _ | _
      · simp [validateItems, hlk, hact] at h
      · by_cases hst : p.stock < (it.quantity : Int)
        · simp [validateItems, hlk, hact, if_pos hst] at h
        · rw [validateItems_cons_of_ok db it rest p hlk hact (not_lt.mp hst)] at h
          rcases hrest : validateItems db rest with e | r
          · rw [hrest] at h
            simp at h
          · obtain ⟨ois0, t0⟩ := r
            rw [hrest] at h
            simp only [Except.ok.injEq, Prod.mk.injEq] at h
            obtain ⟨hois, ht⟩ := h
            obtain ⟨hsig, htot, hall⟩ := ih ois0 t0 hrest
            constructor
            · rw [← hois]
              simp [OrderItem.sig, CartItem.sig, hsig]
            constructor
            · rw [← ht, htot]
              simp [itemsPriceOf, priceOf, hlk]
            · intro jt hjt
              rcases List.mem_cons.mp hjt with h1 | h2
              · subst h1
                rw [lineOkB_iff]
                exact ⟨p, hlk, hact, not_lt.mp hst⟩
              · exact hall jt h2

lemma validateItems_error_propagates (db : DB) (it : CartItem) (l : List CartItem)
    (hok : lineOkB db it = true) (e : OpError)
    (h : validateItems db l = .error e) : validateItems db (it :: l) = .error e := by
  obtain ⟨p, hp, ha, hs⟩ := (lineOkB_iff db it).mp hok
  rw [validateItems_cons_of_ok db it l p hp ha hs, h]

/-! ### Decomposition of createOrder -/

lemma createOrder_of_empty (db : DB) (u : UserId) (failAt : Option Nat)
    (h : cartItemsOf db u = []) : createOrder db u failAt = (.error .emptyCart, db) := by
  unfold createOrder
  simp [h]

lemma createOrder_of_validation_error (db : DB) (u : UserId) (failAt : Option Nat)
    (e : OpError) (h : validateItems db (cartItemsOf db u) = .error e) :
    createOrder db u failAt = (.error e, db) := by
  unfold createOrder
  by_cases hi : cartItemsOf db u = []
  · rw [hi] at h
    simp [validateItems] at h
  · simp only [hi, if_false, h]

lemma createOrder_ok (db : DB) (u : UserId) (failAt : Option Nat) (o : Order) (db2 : DB)
    (h : createOrder db u failAt = (.ok o, db2)) :
    cartItemsOf db u ≠ [] ∧
    ∃ ois t, validateItems db (cartItemsOf db u) = .ok (ois, t) ∧
      o = mkOrder u ois t ∧
      db2 = applyWrites (commitWrites u db.nextOrderId o (cartItemsOf db u)) db := by
  unfold createOrder at h
  by_cases hi : cartItemsOf db u = []
  · simp [hi] at h
  · simp only [hi, if_false] at h
    rcases hv : validateItems db (cartItemsOf db u) with e | r
    · rw [hv] at h
      simp at h
    · obtain ⟨ois, t⟩ := r
      rw [hv] at h
      rcases failAt with _ | k
      · simp only [Prod.mk.injEq, Except.ok.injEq] at h
        exact ⟨hi, ois, t, rfl, h.1.symm, by rw [← h.1, ← h.2]⟩
      · simp only at h
        split at h
        · simp at h
        · simp only [Prod.mk.injEq, Except.ok.injEq] at h
          exact ⟨hi, ois, t, rfl, h.1.symm, by rw [← h.1, ← h.2]⟩

lemma applyWrites_commit (u : UserId) (oid : OrderId) (o : Order) (lines : List CartItem)
    (db : DB) :
    applyWrites (commitWrites u oid o lines) db =
      clearCartOf
        (lines.foldl (fun d it => incStock d it.product (-(it.quantity : Int)))
          { db with orders := db.orders ++ [(oid, o)], nextOrderId := oid + 1 }) u := by
  simp [applyWrites, commitWrites, List.foldl_map]

lemma applyWrites_commit_take (u : UserId) (oid : OrderId) (o : Order)
    (lines : List CartItem) (db : DB) (k : Nat) (hk2 : k ≤ lines.length) :
    applyWrites ((commitWrites u oid o lines).take (k + 1)) db =
      ((lines.take k).foldl (fun d it => incStock d it.product (-(it.quantity : Int)))
        { db with orders := db.orders ++ [(oid, o)], nextOrderId := oid + 1 }) := by
  have hsplit : commitWrites u oid o lines =
      ((fun db => { db with orders := db.orders ++ [(oid, o)], nextOrderId := oid + 1 })
        :: lines.map (fun item => fun db => incStock db item.product (-(item.quantity : Int))))
      ++ [fun db => clearCartOf db u] := rfl
  rw [hsplit, List.take_append_eq_append_take]
  have hlen : k + 1 ≤
      ((fun db => { db with orders := db.orders ++ [(oid, o)], nextOrderId := oid + 1 })
        :: lines.map
            (fun item => fun db => incStock db item.product (-(item.quantity : Int)))).length := by
    simp [Nat.succ_le_succ hk2]
  rw [Nat.sub_eq_zero_of_le hlen, List.take_zero, List.append_nil, List.take_cons_succ,
    ← List.map_take]
  simp only [applyWrites, List.foldl_cons, List.foldl_map]

lemma lookup_carts_of_items_ne_nil (db : DB) (u : UserId) (h : cartItemsOf db u ≠ []) :
    db.carts.lookup u = some ⟨cartItemsOf db u⟩ := by
  unfold cartItemsOf at h ⊢
  cases hc : db.carts.lookup u with
  | none => rw [hc] at h; simp at h
  | some c => simp [hc]

lemma lookup_clearCartOf_self (db : DB) (u : UserId) (h : (db.carts.lookup u).isSome) :
    (clearCartOf db u).carts.lookup u = some ⟨[]⟩ := by
  unfold clearCartOf
  rw [if_pos h, lookup_map_update db.carts (fun _ => ⟨[]⟩) u u]
  obtain ⟨c0, hc0⟩ := Option.isSome_iff_exists.mp h
  simp [hc0]

lemma lookup_clearCartOf_other (db : DB) (u u2 : UserId) (h : u2 ≠ u) :
    (clearCartOf db u).carts.lookup u2 = db.carts.lookup u2 := by
  unfold clearCartOf
  split
  · rw [lookup_map_update db.carts (fun _ => ⟨[]⟩) u u2]
    cases db.carts.lookup u2 <;> simp [h]
  · rfl

/-- Full characterization of the state a successful createOrder run leaves:
stocks decremented by the ordered quantities, the order record appended under
the next order id, the user's cart cleared, other carts untouched. -/
lemma createOrder_ok_state (db : DB) (u : UserId) (failAt : Option Nat) (o : Order)
    (db2 : DB) (h : createOrder db u failAt = (.ok o, db2)) :
    (∀ pid, db2.products.lookup pid =
       (db.products.lookup pid).map
         (fun p =>
           { p with stock := p.stock - qtySum pid ((cartItemsOf db u).map CartItem.sig) })) ∧
    db2.orders = db.orders ++ [(db.nextOrderId, o)] ∧
    db2.carts.lookup u = some ⟨[]⟩ ∧
    (∀ u2, u2 ≠ u → db2.carts.lookup u2 = db.carts.lookup u2) := by
  obtain ⟨hne, ois, t, hv, ho, hdb⟩ := createOrder_ok db u failAt o db2 h
  rw [applyWrites_commit] at hdb
  refine ⟨?_, ?_, ?_, ?_⟩
  · intro pid
    rw [hdb, clearCartOf_products, lookup_decFold]
  · rw [hdb, clearCartOf_orders, decFold_orders]
  · rw [hdb]
    apply lookup_clearCartOf_self
    rw [decFold_carts]
    show (db.carts.lookup u).isSome
    rw [lookup_carts_of_items_ne_nil db u hne]
    rfl
  · intro u2 hu2
    rw [hdb, lookup_clearCartOf_other _ u u2 hu2, decFold_carts]

/-! ### Claim theorems -/

/-- C4: for every successful createOrder call, itemsPrice is the sum over
the cart's lines of the catalog's current unit price times quantity,
shippingPrice is 0 when itemsPrice exceeds 100 and 10 otherwise (in
particular 10 at exactly 100), taxPrice is 10 percent of itemsPrice, and the
stored totalAmount is itemsPrice + shippingPrice + taxPrice. -/
theorem createOrder_pricing (db : DB) (u : UserId) (failAt : Option Nat) (o : Order)
    (db2 : DB) (h : createOrder db u failAt = (.ok o, db2)) :
    o.itemsPrice = itemsPriceOf db (cartItemsOf db u) ∧
    o.shippingPrice = (if o.itemsPrice > 100 then (0 : ℚ) else 10) ∧
    (o.itemsPrice = 100 → o.shippingPrice = 10) ∧
    o.taxPrice = o.itemsPrice * (1/10) ∧
    o.totalAmount = o.itemsPrice + o.shippingPrice + o.taxPrice := by
  obtain ⟨hne, ois, t, hv, ho, hdb⟩ := createOrder_ok db u failAt o db2 h
  obtain ⟨hsig, ht, hall⟩ := validateItems_ok_spec db _ ois t hv
  subst ho
  refine ⟨by simpa [mkOrder] using ht, by simp [mkOrder], ?_, rfl, rfl⟩
  intro h100
  simp only [mkOrder] at h100 ⊢
  rw [if_neg]
  rw [h100]
  exact lt_irrefl 100

/-- Witness database for the pricing scenario: product P with stock 5 and
price 20, one cart line of quantity 3. -/
def wProduct : Product := ⟨"P", 20, 5, true, ["img"]⟩

def wDB : DB := ⟨[(0, wProduct)], [(7, ⟨[⟨0, 3, 20⟩]⟩)], [], 0⟩

def wOrder : Order := mkOrder 7 [⟨0, "P", "img", 20, 3⟩] 60

def wDB2 : DB := ⟨[(0, ⟨"P", 20, 2, true, ["img"]⟩)], [(7, ⟨[]⟩)], [(0, wOrder)], 1⟩

lemma wCreate_eq : createOrder wDB 7 none = (.ok wOrder, wDB2) := by
  norm_num [createOrder, cartItemsOf, wDB, wDB2, wOrder, wProduct, validateItems, mkOrder,
    commitWrites, applyWrites, incStock, clearCartOf, List.lookup]

theorem createOrder_pricing_witness :
    wOrder.itemsPrice = itemsPriceOf wDB (cartItemsOf wDB 7) ∧
    wOrder.shippingPrice = (if wOrder.itemsPrice > 100 then (0 : ℚ) else 10) ∧
    (wOrder.itemsPrice = 100 → wOrder.shippingPrice = 10) ∧
    wOrder.taxPrice = wOrder.itemsPrice * (1/10) ∧
    wOrder.totalAmount = wOrder.itemsPrice + wOrder.shippingPrice + wOrder.taxPrice :=
  createOrder_pricing wDB 7 none wOrder wDB2 wCreate_eq

lemma validateItems_append_error (db : DB) (pre l : List CartItem) (e : OpError)
    (hpre : ∀ it ∈ pre, lineOkB db it = true)
    (h : validateItems db l = .error e) :
    validateItems db (pre ++ l) = .error e := by
  induction pre with
  | nil => simpa using h
  | cons x xs ih =>
    rw [List.cons_append]
    refine validateItems_error_propagates db x _ (hpre x (by simp)) e ?_
    exact ih (fun it hit => hpre it (List.mem_cons_of_mem _ hit))

/-- C3: createOrder fails with the empty-cart error on an empty (or absent)
cart; otherwise the first cart line failing validation aborts the whole call
— with the product-unavailable error when its product is missing or
inactive, and with the insufficient-stock error naming the product with
available and requested quantities when stock is short — and in every such
failure the state is returned unchanged: no order, no stock change, cart
intact. -/
theorem createOrder_validation (db : DB) (u : UserId) (failAt : Option Nat) :
    (cartItemsOf db u = [] → createOrder db u failAt = (.error .emptyCart, db)) ∧
    (∀ pre item post, cartItemsOf db u = pre ++ item :: post →
      (∀ it ∈ pre, lineOkB db it = true) →
      ((db.products.lookup item.product = none →
          createOrder db u failAt = (.error (.productUnavailable "Unknown"), db)) ∧
       (∀ p, db.products.lookup item.product = some p → p.isActive = false →
          createOrder db u failAt = (.error (.productUnavailable p.name), db)) ∧
       (∀ p, db.products.lookup item.product = some p → p.isActive = true →
          p.stock < (item.quantity : Int) →
          createOrder db u failAt =
            (.error (.insufficientStock p.name p.stock item.quantity), db)))) := by
  refine ⟨createOrder_of_empty db u failAt, ?_⟩
  intro pre item post hsplit hpre
  have key : ∀ e, validateItems db (item :: post) = .error e →
      createOrder db u failAt = (.error e, db) := by
    intro e he
    apply createOrder_of_validation_error
    rw [hsplit]
    exact validateItems_append_error db pre _ e hpre he
  refine ⟨?_, ?_, ?_⟩
  · intro hlk
    exact key _ (by simp [validateItems, hlk])
  · intro p hlk hina
    exact key _ (by simp [validateItems, hlk, hina])
  · intro p hlk hact hst
    refine key _ ?_
    simp [validateItems, hlk, hact, hst]

/-- Witness database for the insufficient-stock scenario: product P with
stock 2, cart line requesting quantity 3. -/
def wProductIns : Product := ⟨"P", 20, 2, true, ["img"]⟩

def wDBins : DB := ⟨[(0, wProductIns)], [(7, ⟨[⟨0, 3, 20⟩]⟩)], [], 0⟩

theorem createOrder_validation_witness :
    createOrder wDBins 7 none = (.error (.insufficientStock "P" 2 3), wDBins) :=
  ((createOrder_validation wDBins 7 none).2 [] ⟨0, 3, 20⟩ [] rfl (by simp)).2.2
    wProductIns rfl rfl (by decide)

lemma stockOf_eq (db : DB) (pid : ProductId) (p : Product)
    (h : db.products.lookup pid = some p) : stockOf db pid = p.stock := by
  unfold stockOf
  rw [h]
  rfl

lemma sig_keys (l : List CartItem) :
    (l.map CartItem.sig).map Prod.fst = l.map CartItem.product := by
  rw [List.map_map]
  rfl

/-- C5: after a successful createOrder commit, every referenced product's
stock equals its pre-commit stock minus the ordered quantity and stays
non-negative; unreferenced products keep their stock; and the decrement step
preserves the global stock-non-negativity invariant. -/
theorem createOrder_stock (db : DB) (u : UserId) (failAt : Option Nat) (o : Order)
    (db2 : DB) (hnd : ((cartItemsOf db u).map CartItem.product).Nodup)
    (h : createOrder db u failAt = (.ok o, db2)) :
    (∀ it ∈ cartItemsOf db u,
        stockOf db2 it.product = stockOf db it.product - (it.quantity : Int) ∧
        0 ≤ stockOf db2 it.product) ∧
    (∀ pid, pid ∉ (cartItemsOf db u).map CartItem.product →
        stockOf db2 pid = stockOf db pid) ∧
    ((∀ pid, 0 ≤ stockOf db pid) → ∀ pid, 0 ≤ stockOf db2 pid) := by
  obtain ⟨hprod, horders, hcart, hcarts⟩ := createOrder_ok_state db u failAt o db2 h
  obtain ⟨hne, ois, t, hv, ho, hdb⟩ := createOrder_ok db u failAt o db2 h
  obtain ⟨hsig, ht, hall⟩ := validateItems_ok_spec db _ ois t hv
  have hndk : (((cartItemsOf db u).map CartItem.sig).map Prod.fst).Nodup := by
    rw [sig_keys]
    exact hnd
  refine ⟨?_, ?_, ?_⟩
  · intro it hit
    obtain ⟨p, hlk, hact, hst⟩ := (lineOkB_iff db it).mp (hall it hit)
    have hq : qtySum it.product ((cartItemsOf db u).map CartItem.sig) = (it.quantity : Int) := by
      have hm : it.sig ∈ (cartItemsOf db u).map CartItem.sig :=
        List.mem_map.mpr ⟨it, hit, rfl⟩
      simpa [CartItem.sig] using
        qtySum_of_mem_nodup ((cartItemsOf db u).map CartItem.sig) it.sig hm hndk
    have h2 : stockOf db2 it.product = p.stock - (it.quantity : Int) := by
      unfold stockOf
      rw [hprod it.product, hlk]
      simp [hq]
    rw [h2, stockOf_eq db it.product p hlk]
    exact ⟨rfl, by omega⟩
  · intro pid hpid
    have hq : qtySum pid ((cartItemsOf db u).map CartItem.sig) = 0 := by
      apply qtySum_eq_zero_of_not_mem
      rw [sig_keys]
      exact hpid
    unfold stockOf
    rw [hprod pid]
    cases db.products.lookup pid <;> simp [hq]
  · intro hpos pid
    cases hlk : db.products.lookup pid with
    | none =>
      unfold stockOf
      rw [hprod pid, hlk]
      simp
    | some p =>
      have hbase : stockOf db2 pid = p.stock - qtySum pid ((cartItemsOf db u).map CartItem.sig) := by
        unfold stockOf
        rw [hprod pid, hlk]
        rfl
      by_cases hmem : pid ∈ (cartItemsOf db u).map CartItem.product
      · obtain ⟨it, hit, hpe⟩ := List.mem_map.mp hmem
        obtain ⟨p2, hlk2, hact2, hst2⟩ := (lineOkB_iff db it).mp (hall it hit)
        rw [hpe] at hlk2
        rw [hlk] at hlk2
        injection hlk2 with hp2
        have hq : qtySum pid ((cartItemsOf db u).map CartItem.sig) = (it.quantity : Int) := by
          have hm : it.sig ∈ (cartItemsOf db u).map CartItem.sig :=
            List.mem_map.mpr ⟨it, hit, rfl⟩
          have := qtySum_of_mem_nodup ((cartItemsOf db u).map CartItem.sig) it.sig hm hndk
          simpa [CartItem.sig, hpe] using this
        rw [hbase, hq]
        rw [← hp2] at hst2
        omega
      · have hq : qtySum pid ((cartItemsOf db u).map CartItem.sig) = 0 :=
          qtySum_eq_zero_of_not_mem _ _ (by rw [sig_keys]; exact hmem)
        have hp := hpos pid
        rw [stockOf_eq db pid p hlk] at hp
        rw [hbase, hq]
        omega

theorem createOrder_stock_witness :
    (∀ it ∈ cartItemsOf wDB 7,
        stockOf wDB2 it.product = stockOf wDB it.product - (it.quantity : Int) ∧
        0 ≤ stockOf wDB2 it.product) ∧
    (∀ pid, pid ∉ (cartItemsOf wDB 7).map CartItem.product →
        stockOf wDB2 pid = stockOf wDB pid) ∧
    ((∀ pid, 0 ≤ stockOf wDB pid) → ∀ pid, 0 ≤ stockOf wDB2 pid) :=
  createOrder_stock wDB 7 none wOrder wDB2 (by decide) wCreate_eq

lemma sig_keys_order (l : List OrderItem) :
    (l.map OrderItem.sig).map Prod.fst = l.map OrderItem.product := by
  rw [List.map_map]
  rfl

/-- C6: cancelOrder rejects a caller who does not own the order with the
forbidden error regardless of the admin flag, rejects Delivered and
Cancelled orders with the invalid-transition error leaving the state
unchanged, and otherwise restores each line item's product stock by its
quantity, sets orderStatus to Cancelled and paymentStatus to Refunded. -/
theorem cancelOrder_spec (db : DB) (caller : UserId) (admin : Bool) (oid : OrderId)
    (o : Order) (h : db.orders.lookup oid = some o) :
    (o.user ≠ caller → cancelOrder db caller admin oid = (.error .forbidden, db)) ∧
    (o.user = caller → (o.orderStatus = .Delivered ∨ o.orderStatus = .Cancelled) →
      cancelOrder db caller admin oid = (.error .invalidTransition, db)) ∧
    (o.user = caller → o.orderStatus ≠ .Delivered → o.orderStatus ≠ .Cancelled →
      ∃ db2, cancelOrder db caller admin oid =
          (.ok { o with orderStatus := .Cancelled, paymentStatus := .Refunded }, db2) ∧
        db2.orders.lookup oid =
          some { o with orderStatus := .Cancelled, paymentStatus := .Refunded } ∧
        ((o.items.map OrderItem.product).Nodup →
          ∀ it ∈ o.items, ∀ p, db.products.lookup it.product = some p →
            stockOf db2 it.product = p.stock + (it.quantity : Int))) := by
  refine ⟨?_, ?_, ?_⟩
  · intro hno
    simp [cancelOrder, h, hno]
  · intro hyes hterm
    rcases hterm with h1 | h1 <;> simp [cancelOrder, h, hyes, h1]
  · intro hyes hd hc
    have hcond : ¬ (o.orderStatus = .Delivered ∨ o.orderStatus = .Cancelled) := by
      simp [hd, hc]
    refine ⟨setOrder
        (o.items.foldl (fun d it => incStock d it.product (it.quantity : Int)) db) oid
        { o with orderStatus := .Cancelled, paymentStatus := .Refunded }, ?_, ?_, ?_⟩
    · simp [cancelOrder, h, hyes, hcond]
    · rw [lookup_setOrder, incFold_orders, h]
      simp
    · intro hnd it hit p hp
      have hndk : ((o.items.map OrderItem.sig).map Prod.fst).Nodup := by
        rw [sig_keys_order]
        exact hnd
      have hq : qtySum it.product (o.items.map OrderItem.sig) = (it.quantity : Int) := by
        have hm : it.sig ∈ o.items.map OrderItem.sig := List.mem_map.mpr ⟨it, hit, rfl⟩
        simpa [OrderItem.sig] using
          qtySum_of_mem_nodup (o.items.map OrderItem.sig) it.sig hm hndk
      unfold stockOf
      rw [setOrder_products, lookup_incFold, hp]
      simp [hq]

/-- Witness order and database for cancelOrder: user 7 owns order 0, status
Processing, paymentStatus Paid; product 0 has stock 2. -/
def wOrderC : Order :=
  { user := 7, items := [⟨0, "P", "img", 20, 3⟩], itemsPrice := 60, shippingPrice := 10,
    taxPrice := 6, totalAmount := 76, paymentStatus := .Paid, orderStatus := .Processing,
    paidAt := some 5, deliveredAt := none, trackingNumber := none, notes := none }

def wDBC : DB := ⟨[(0, ⟨"P", 20, 2, true, ["img"]⟩)], [], [(0, wOrderC)], 1⟩

theorem cancelOrder_spec_witness :
    (wOrderC.user ≠ 9 → cancelOrder wDBC 9 true 0 = (.error .forbidden, wDBC)) ∧
    (wOrderC.user = 7 → wOrderC.orderStatus ≠ .Delivered → wOrderC.orderStatus ≠ .Cancelled →
      ∃ db2, cancelOrder wDBC 7 false 0 =
          (.ok { wOrderC with orderStatus := .Cancelled, paymentStatus := .Refunded }, db2) ∧
        db2.orders.lookup 0 =
          some { wOrderC with orderStatus := .Cancelled, paymentStatus := .Refunded } ∧
        ((wOrderC.items.map OrderItem.product).Nodup →
          ∀ it ∈ wOrderC.items, ∀ p, wDBC.products.lookup it.product = some p →
            stockOf db2 it.product = p.stock + (it.quantity : Int))) :=
  ⟨(cancelOrder_spec wDBC 9 true 0 wOrderC rfl).1,
   (cancelOrder_spec wDBC 7 false 0 wOrderC rfl).2.2⟩

/-- C2 counterexample: an order already Delivered is moved back to
Processing by a single updateOrderStatus call, so Delivered is not terminal
under updateOrderStatus. -/
def wDelivered : Order :=
  { user := 1, items := [], itemsPrice := 0, shippingPrice := 10, taxPrice := 0,
    totalAmount := 10, paymentStatus := .Paid, orderStatus := .Delivered,
    paidAt := some 1, deliveredAt := some 2, trackingNumber := none, notes := none }

def wDBterm : DB := ⟨[], [], [(0, wDelivered)], 1⟩

/-- C2 counterexample: the stored order 0 is Delivered, yet after one
updateOrderStatus call its orderStatus is Processing again — the claimed
terminal-state invariant fails on the code, which sets orderStatus with no
transition check. -/
theorem updateOrderStatus_escapes_terminal :
    wDelivered.orderStatus = .Delivered ∧
    ((updateOrderStatus wDBterm 0 .Processing none none 9).2.orders.lookup 0).map
        Order.orderStatus = some .Processing ∧
    (updateOrderStatus wDBterm 0 .Processing none none 9).1 =
      .ok { wDelivered with orderStatus := .Processing } :=
  ⟨rfl, by decide, rfl⟩

/-- C2 amended: Delivered and Cancelled are terminal for cancelOrder — any
cancelOrder call on such an order errors and returns the state unchanged —
but updateOrderStatus enforces no transition check, so the terminal-state
invariant holds only for sequences of cancelOrder calls. -/
theorem cancelOrder_terminal_invariant (db : DB) (caller : UserId) (admin : Bool)
    (oid : OrderId) (o : Order) (h : db.orders.lookup oid = some o)
    (ht : o.orderStatus = .Delivered ∨ o.orderStatus = .Cancelled) :
    (cancelOrder db caller admin oid).2 = db ∧
    (∀ o2, (cancelOrder db caller admin oid).1 ≠ .ok o2) := by
  by_cases hown : o.user ≠ caller
  · simp [cancelOrder, h, hown]
  · rcases ht with h1 | h1 <;> simp [cancelOrder, h, hown, h1]

theorem cancelOrder_terminal_invariant_witness :
    (cancelOrder wDBterm 1 false 0).2 = wDBterm ∧
    (∀ o2, (cancelOrder wDBterm 1 false 0).1 ≠ .ok o2) :=
  cancelOrder_terminal_invariant wDBterm 1 false 0 wDelivered rfl (Or.inl rfl)

/-- C7: cancelling a freshly created (not yet cancelled) order is the exact
inverse of the checkout's stock effect: with no intervening sales, every
product's stock after cancelOrder equals its stock before the createOrder
that created the order. -/
theorem cancelOrder_inverts_createOrder (db : DB) (u : UserId) (admin : Bool) (o : Order)
    (db1 : DB) (h : createOrder db u none = (.ok o, db1))
    (hfresh : ∀ e ∈ db.orders, e.1 < db.nextOrderId) :
    ∃ db2, cancelOrder db1 u admin db.nextOrderId =
        (.ok { o with orderStatus := .Cancelled, paymentStatus := .Refunded }, db2) ∧
      ∀ pid, stockOf db2 pid = stockOf db pid := by
  obtain ⟨hprod, horders, hcart, hcarts⟩ := createOrder_ok_state db u none o db1 h
  obtain ⟨hne, ois, t, hv, ho, hdb⟩ := createOrder_ok db u none o db1 h
  obtain ⟨hsig, ht, hall⟩ := validateItems_ok_spec db _ ois t hv
  have hoid : db1.orders.lookup db.nextOrderId = some o := by
    rw [horders, lookup_append_right]
    · rw [lookup_cons_eq, if_pos rfl]
    · intro hmem
      obtain ⟨e, he, hek⟩ := List.mem_map.mp hmem
      exact absurd hek (Nat.ne_of_lt (hfresh e he))
  have huser : o.user = u := by rw [ho]; rfl
  have hst : o.orderStatus = .Processing := by rw [ho]; rfl
  have hcond : ¬ (o.orderStatus = .Delivered ∨ o.orderStatus = .Cancelled) := by
    simp [hst]
  have hnu : ¬ o.user ≠ u := by simp [huser]
  refine ⟨setOrder
      (o.items.foldl (fun d it => incStock d it.product (it.quantity : Int)) db1)
      db.nextOrderId { o with orderStatus := .Cancelled, paymentStatus := .Refunded },
    ?_, ?_⟩
  · simp [cancelOrder, hoid, hnu, hcond]
  · intro pid
    have hqeq : qtySum pid (o.items.map OrderItem.sig) =
        qtySum pid ((cartItemsOf db u).map CartItem.sig) := by
      have : o.items = ois := by rw [ho]; rfl
      rw [this, hsig]
    unfold stockOf
    rw [setOrder_products, lookup_incFold, hprod pid, hqeq]
    cases db.products.lookup pid with
    | none => rfl
    | some p =>
      simp only [Option.map_some', Option.getD_some]
      omega

theorem cancelOrder_inverts_createOrder_witness :
    ∃ db2, cancelOrder wDB2 7 false 0 =
        (.ok { wOrder with orderStatus := .Cancelled, paymentStatus := .Refunded }, db2) ∧
      ∀ pid, stockOf db2 pid = stockOf wDB pid :=
  cancelOrder_inverts_createOrder wDB 7 false wOrder wDB2 wCreate_eq (by decide)

lemma commitWrites_length (u : UserId) (oid : OrderId) (o : Order)
    (lines : List CartItem) :
    (commitWrites u oid o lines).length = lines.length + 2 := by
  simp [commitWrites]

lemma createOrder_fail_run (db : DB) (u : UserId) (ois : List OrderItem) (t : ℚ)
    (hne : cartItemsOf db u ≠ [])
    (hv : validateItems db (cartItemsOf db u) = .ok (ois, t))
    (k : Nat) (hk : k < (cartItemsOf db u).length + 2) :
    createOrder db u (some k) =
      (.error .storage,
       applyWrites
         ((commitWrites u db.nextOrderId (mkOrder u ois t) (cartItemsOf db u)).take k)
         db) := by
  unfold createOrder
  simp only [hne, if_false, hv]
  rw [if_pos]
  rw [commitWrites_length]
  exact hk

lemma qtySum_take_of_nodup (l : List CartItem) (hnd : (l.map CartItem.product).Nodup)
    (m : Nat) (j : Fin l.length) :
    qtySum (l.get j).product ((l.take m).map CartItem.sig) =
      if (j : Nat) < m then ((l.get j).quantity : Int) else 0 := by
  induction l generalizing m with
  | nil => exact absurd j.isLt (by simp)
  | cons x xs ih =>
    simp only [List.map_cons, List.nodup_cons] at hnd
    obtain ⟨hx, hxs⟩ := hnd
    cases m with
    | zero => simp [qtySum]
    | succ m0 =>
      rcases j with ⟨jv, hj⟩
      cases jv with
      | zero =>
        rw [List.take_succ_cons]
        have hnotin : x.product ∉ ((xs.map CartItem.sig).take m0).map Prod.fst := by
          intro hmem
          obtain ⟨e, he, hek⟩ := List.mem_map.mp hmem
          have he2 : e ∈ xs.map CartItem.sig := List.take_subset m0 _ he
          obtain ⟨it, hit, rfl⟩ := List.mem_map.mp he2
          exact hx (List.mem_map.mpr ⟨it, hit, hek⟩)
        simp [qtySum, CartItem.sig, qtySum_eq_zero_of_not_mem _ _ hnotin]
      | succ j0 =>
        have hj0 : j0 < xs.length := Nat.lt_of_succ_lt_succ hj
        have hget : ((x :: xs).get ⟨j0 + 1, hj⟩) = xs.get ⟨j0, hj0⟩ := rfl
        rw [hget, List.take_succ_cons]
        have hxne : ¬ x.product = (xs.get ⟨j0, hj0⟩).product := by
          intro hh
          exact hx (hh ▸ List.mem_map.mpr ⟨xs.get ⟨j0, hj0⟩, xs.get_mem j0 hj0, rfl⟩)
        simp only [List.map_cons, qtySum, CartItem.sig]
        rw [if_neg hxne, zero_add, ih hxs m0 ⟨j0, hj0⟩]
        simp [Nat.succ_lt_succ_iff]

/-- C1 amended: the commit phase of createOrder is applied sequentially with
no transaction: a failure at the order-persist write leaves the state
unchanged, while a failure at the k-th later write (a stock decrement or the
cart clear) leaves exactly the earlier writes applied — the order record is
stored, only the first k-1 lines' stocks are decremented, and the cart is
untouched — so an order record without its stock decrements (and a
non-cleared cart alongside a stored order) is reachable. -/
theorem createOrder_commit_stepwise (db : DB) (u : UserId) (o : Order) (dbS : DB)
    (h : createOrder db u none = (.ok o, dbS))
    (hfresh : ∀ e ∈ db.orders, e.1 < db.nextOrderId)
    (hnd : ((cartItemsOf db u).map CartItem.product).Nodup) :
    (createOrder db u (some 0) = (.error .storage, db)) ∧
    (∀ k, 1 ≤ k → k ≤ (cartItemsOf db u).length + 1 →
      ∃ dbF, createOrder db u (some k) = (.error .storage, dbF) ∧
        dbF.orders.lookup db.nextOrderId = some o ∧
        dbF.carts.lookup u = db.carts.lookup u ∧
        ∀ (j : Fin (cartItemsOf db u).length),
          stockOf dbF ((cartItemsOf db u).get j).product =
            stockOf db ((cartItemsOf db u).get j).product -
              (if (j : Nat) < k - 1 then (((cartItemsOf db u).get j).quantity : Int)
               else 0)) := by
  obtain ⟨hne, ois, t, hv, ho, hdbS⟩ := createOrder_ok db u none o dbS h
  obtain ⟨hsig, ht, hall⟩ := validateItems_ok_spec db _ ois t hv
  constructor
  · rw [createOrder_fail_run db u ois t hne hv 0 (by omega)]
    simp [applyWrites]
  · intro k hk1 hk2
    obtain ⟨k0, rfl⟩ : ∃ k0, k = k0 + 1 := ⟨k - 1, by omega⟩
    have hk0 : k0 ≤ (cartItemsOf db u).length := by omega
    refine ⟨_, createOrder_fail_run db u ois t hne hv (k0 + 1) (by omega), ?_, ?_, ?_⟩
    · rw [applyWrites_commit_take u db.nextOrderId (mkOrder u ois t) _ db k0 hk0,
        decFold_orders]
      show (db.orders ++ [(db.nextOrderId, mkOrder u ois t)]).lookup db.nextOrderId = _
      rw [lookup_append_right, lookup_cons_eq, if_pos rfl, ← ho]
      intro hmem
      obtain ⟨e, he, hek⟩ := List.mem_map.mp hmem
      exact absurd hek (Nat.ne_of_lt (hfresh e he))
    · rw [applyWrites_commit_take u db.nextOrderId (mkOrder u ois t) _ db k0 hk0,
        decFold_carts]
    · intro j
      rw [applyWrites_commit_take u db.nextOrderId (mkOrder u ois t) _ db k0 hk0]
      have hmem : (cartItemsOf db u).get j ∈ cartItemsOf db u :=
        (cartItemsOf db u).get_mem j.1 j.2
      obtain ⟨p, hlk, hact, hst⟩ := (lineOkB_iff db _).mp (hall _ hmem)
      unfold stockOf
      rw [lookup_decFold]
      show (((db.products.lookup ((cartItemsOf db u).get j).product).map _).map
        Product.stock).getD 0 = _
      rw [hlk, qtySum_take_of_nodup (cartItemsOf db u) hnd k0 j]
      simp

/-- State left by the C1 counterexample run: the order record is stored
while stock and cart are untouched. -/
def wDBfail : DB := ⟨[(0, wProduct)], [(7, ⟨[⟨0, 3, 20⟩]⟩)], [(0, wOrder)], 1⟩

lemma wCreateFail_eq : createOrder wDB 7 (some 1) = (.error .storage, wDBfail) := by
  norm_num [createOrder, cartItemsOf, wDB, wDBfail, wOrder, wProduct, validateItems, mkOrder,
    commitWrites, applyWrites, incStock, clearCartOf, List.lookup]

/-- C1 counterexample: with product stock 5 and one cart line of quantity 3,
a failure at the first stock-decrement write (right after the order persist)
produces a reachable outcome with an order record stored, no stock
decremented, and the cart still full — which the atomicity claim rules out;
the state is not left unchanged either. -/
theorem createOrder_not_atomic :
    (createOrder wDB 7 (some 1)).1 = .error .storage ∧
    ((createOrder wDB 7 (some 1)).2.orders.lookup 0).isSome = true ∧
    stockOf (createOrder wDB 7 (some 1)).2 0 = 5 ∧
    cartItemsOf (createOrder wDB 7 (some 1)).2 7 = [⟨0, 3, 20⟩] ∧
    (createOrder wDB 7 (some 1)).2.orders ≠ wDB.orders := by
  rw [wCreateFail_eq]
  exact ⟨rfl, rfl, rfl, rfl, by decide⟩

theorem createOrder_commit_stepwise_witness :
    (createOrder wDB 7 (some 0) = (.error .storage, wDB)) ∧
    (∀ k, 1 ≤ k → k ≤ (cartItemsOf wDB 7).length + 1 →
      ∃ dbF, createOrder wDB 7 (some k) = (.error .storage, dbF) ∧
        dbF.orders.lookup wDB.nextOrderId = some wOrder ∧
        dbF.carts.lookup 7 = wDB.carts.lookup 7 ∧
        ∀ (j : Fin (cartItemsOf wDB 7).length),
          stockOf dbF ((cartItemsOf wDB 7).get j).product =
            stockOf wDB ((cartItemsOf wDB 7).get j).product -
              (if (j : Nat) < k - 1 then (((cartItemsOf wDB 7).get j).quantity : Int)
               else 0)) :=
  createOrder_commit_stepwise wDB 7 wOrder wDB2 wCreate_eq (by decide) (by decide)

lemma addToCart_orders (db : DB) (u : UserId) (pid : ProductId) (q : Nat) :
    (addToCart db u pid q).2.orders = db.orders := by
  unfold addToCart
  rcases hlk : db.products.lookup pid with _ | p
  · rfl
  · simp only
    split
    · rfl
    · split
      · rfl
      · split
        · split
          · rfl
          · exact setCart_orders ..
        · exact setCart_orders ..

lemma validateCart_orders (db : DB) (u : UserId) :
    (validateCart db u).2.orders = db.orders := by
  unfold validateCart
  rcases hlk : db.carts.lookup u with _ | cart
  · rfl
  · simp only
    split
    · rfl
    · rcases hr : reconcileItems db cart.items with ⟨upd, iss⟩
      simp only [hr]
      split
      · exact setCart_orders ..
      · rfl

lemma createOrder_orders_cases (db : DB) (u : UserId) (fa : Option Nat) :
    (createOrder db u fa).2.orders = db.orders ∨
    ∃ o, (createOrder db u fa).2.orders = db.orders ++ [(db.nextOrderId, o)] := by
  by_cases hi : cartItemsOf db u = []
  · left
    rw [createOrder_of_empty db u fa hi]
  · rcases hv : validateItems db (cartItemsOf db u) with e | r
    · left
      rw [createOrder_of_validation_error db u fa e hv]
    · obtain ⟨ois, t⟩ := r
      rcases fa with _ | k
      · right
        refine ⟨mkOrder u ois t, ?_⟩
        have hrun : createOrder db u none =
            (.ok (mkOrder u ois t),
             applyWrites (commitWrites u db.nextOrderId (mkOrder u ois t) (cartItemsOf db u))
               db) := by
          unfold createOrder
          simp only [hi, if_false, hv]
        rw [hrun, applyWrites_commit, clearCartOf_orders, decFold_orders]
      · by_cases hk : k < (cartItemsOf db u).length + 2
        · cases k with
          | zero =>
            left
            rw [createOrder_fail_run db u ois t hi hv 0 hk]
            simp [applyWrites]
          | succ k0 =>
            right
            refine ⟨mkOrder u ois t, ?_⟩
            rw [createOrder_fail_run db u ois t hi hv (k0 + 1) hk]
            have hk0 : k0 ≤ (cartItemsOf db u).length := by omega
            rw [applyWrites_commit_take u db.nextOrderId (mkOrder u ois t) _ db k0 hk0,
              decFold_orders]
        · right
          refine ⟨mkOrder u ois t, ?_⟩
          have hrun : createOrder db u (some k) =
              (.ok (mkOrder u ois t),
               applyWrites (commitWrites u db.nextOrderId (mkOrder u ois t)
                 (cartItemsOf db u)) db) := by
            unfold createOrder
            simp only [hi, if_false, hv]
            rw [if_neg]
            rw [commitWrites_length]
            exact hk
          rw [hrun, applyWrites_commit, clearCartOf_orders, decFold_orders]

/-- C10: updateOrderToPaid succeeds at most once — the first call on an
unpaid order (by the owner or an admin) sets paymentStatus to Paid and
stamps paidAt, a repeated call fails with the already-paid error leaving the
state unchanged, and none of the other operations (updateOrderStatus, any
further updateOrderToPaid by any caller, createOrder, addToCart,
validateCart) ever moves the order's paymentStatus away from Paid. -/
theorem updateOrderToPaid_once (db : DB) (caller : UserId) (admin : Bool) (oid : OrderId)
    (o : Order) (now now2 : Nat) (h : db.orders.lookup oid = some o)
    (hown : o.user = caller ∨ admin = true) (hnp : o.paymentStatus ≠ .Paid) :
    ∃ db1, updateOrderToPaid db caller admin oid now =
        (.ok { o with paymentStatus := .Paid, paidAt := some now }, db1) ∧
      db1.orders.lookup oid = some { o with paymentStatus := .Paid, paidAt := some now } ∧
      updateOrderToPaid db1 caller admin oid now2 = (.error .alreadyPaid, db1) ∧
      (∀ st tn nt now3,
        ((updateOrderStatus db1 oid st tn nt now3).2.orders.lookup oid).map
            Order.paymentStatus = some .Paid) ∧
      (∀ c2 a2 now3,
        ((updateOrderToPaid db1 c2 a2 oid now3).2.orders.lookup oid).map
            Order.paymentStatus = some .Paid) ∧
      (∀ u2 fa,
        ((createOrder db1 u2 fa).2.orders.lookup oid).map Order.paymentStatus =
          some .Paid) ∧
      (∀ u2 pid q,
        ((addToCart db1 u2 pid q).2.orders.lookup oid).map Order.paymentStatus =
          some .Paid) ∧
      (∀ u2,
        ((validateCart db1 u2).2.orders.lookup oid).map Order.paymentStatus =
          some .Paid) := by
  have hc1 : ¬ (o.user ≠ caller ∧ admin = false) := by
    rcases hown with h1 | h1 <;> simp [h1]
  refine ⟨setOrder db oid { o with paymentStatus := .Paid, paidAt := some now },
    ?_, ?_, ?_, ?_, ?_, ?_, ?_, ?_⟩
  · simp [updateOrderToPaid, h, hc1, hnp]
  · rw [lookup_setOrder, h]
    simp
  · have hl1 : (setOrder db oid
        { o with paymentStatus := .Paid, paidAt := some now }).orders.lookup oid =
        some { o with paymentStatus := .Paid, paidAt := some now } := by
      rw [lookup_setOrder, h]
      simp
    simp [updateOrderToPaid, hl1, hc1]
  · intro st tn nt now3
    have hl1 : (setOrder db oid
        { o with paymentStatus := .Paid, paidAt := some now }).orders.lookup oid =
        some { o with paymentStatus := .Paid, paidAt := some now } := by
      rw [lookup_setOrder, h]
      simp
    simp only [updateOrderStatus, hl1]
    rw [lookup_setOrder, hl1]
    simp
  · intro c2 a2 now3
    have hl1 : (setOrder db oid
        { o with paymentStatus := .Paid, paidAt := some now }).orders.lookup oid =
        some { o with paymentStatus := .Paid, paidAt := some now } := by
      rw [lookup_setOrder, h]
      simp
    by_cases hcc : ({ o with paymentStatus := .Paid, paidAt := some now } : Order).user ≠ c2
        ∧ a2 = false
    · simp [updateOrderToPaid, hl1, hcc]
    · simp [updateOrderToPaid, hl1, hcc]
  · intro u2 fa
    have hl1 : (setOrder db oid
        { o with paymentStatus := .Paid, paidAt := some now }).orders.lookup oid =
        some { o with paymentStatus := .Paid, paidAt := some now } := by
      rw [lookup_setOrder, h]
      simp
    rcases createOrder_orders_cases
        (setOrder db oid { o with paymentStatus := .Paid, paidAt := some now }) u2 fa with
      hC | ⟨oC, hC⟩
    · rw [hC, hl1]
      rfl
    · rw [hC, lookup_append_left _ _ oid _ hl1]
      rfl
  · intro u2 pid q
    rw [addToCart_orders]
    have hl1 : (setOrder db oid
        { o with paymentStatus := .Paid, paidAt := some now }).orders.lookup oid =
        some { o with paymentStatus := .Paid, paidAt := some now } := by
      rw [lookup_setOrder, h]
      simp
    rw [hl1]
    rfl
  · intro u2
    rw [validateCart_orders]
    have hl1 : (setOrder db oid
        { o with paymentStatus := .Paid, paidAt := some now }).orders.lookup oid =
        some { o with paymentStatus := .Paid, paidAt := some now } := by
      rw [lookup_setOrder, h]
      simp
    rw [hl1]
    rfl

/-- Witness order for updateOrderToPaid: order 0 owned by user 7, still
Pending. -/
def wOrderPend : Order :=
  { user := 7, items := [], itemsPrice := 0, shippingPrice := 10, taxPrice := 0,
    totalAmount := 10, paymentStatus := .Pending, orderStatus := .Processing,
    paidAt := none, deliveredAt := none, trackingNumber := none, notes := none }

def wDBPay : DB := ⟨[], [], [(0, wOrderPend)], 1⟩

theorem updateOrderToPaid_once_witness :
    ∃ db1, updateOrderToPaid wDBPay 7 false 0 4 =
        (.ok { wOrderPend with paymentStatus := .Paid, paidAt := some 4 }, db1) ∧
      db1.orders.lookup 0 =
        some { wOrderPend with paymentStatus := .Paid, paidAt := some 4 } ∧
      updateOrderToPaid db1 7 false 0 9 = (.error .alreadyPaid, db1) ∧
      (∀ st tn nt now3,
        ((updateOrderStatus db1 0 st tn nt now3).2.orders.lookup 0).map
            Order.paymentStatus = some .Paid) ∧
      (∀ c2 a2 now3,
        ((updateOrderToPaid db1 c2 a2 0 now3).2.orders.lookup 0).map
            Order.paymentStatus = some .Paid) ∧
      (∀ u2 fa,
        ((createOrder db1 u2 fa).2.orders.lookup 0).map Order.paymentStatus =
          some .Paid) ∧
      (∀ u2 pid q,
        ((addToCart db1 u2 pid q).2.orders.lookup 0).map Order.paymentStatus =
          some .Paid) ∧
      (∀ u2,
        ((validateCart db1 u2).2.orders.lookup 0).map Order.paymentStatus =
          some .Paid) :=
  updateOrderToPaid_once wDBPay 7 false 0 wOrderPend 4 9 rfl (Or.inl rfl) (by decide)

/-! ### Properties of the validateCart reconciliation pass -/

lemma reconcileItems_cons_missing (db : DB) (x : CartItem) (xs : List CartItem)
    (h : db.products.lookup x.product = none) :
    reconcileItems db (x :: xs) =
      ((reconcileItems db xs).1, .missing x.product :: (reconcileItems db xs).2) := by
  rcases hr : reconcileItems db xs with ⟨its, iss⟩
  simp [reconcileItems, hr, h]

lemma reconcileItems_cons_inactive (db : DB) (x : CartItem) (xs : List CartItem)
    (p : Product) (h : db.products.lookup x.product = some p) (ha : p.isActive = false) :
    reconcileItems db (x :: xs) =
      ((reconcileItems db xs).1, .inactive x.product p.name :: (reconcileItems db xs).2) := by
  rcases hr : reconcileItems db xs with ⟨its, iss⟩
  simp [reconcileItems, hr, h, ha]

lemma reconcileItems_cons_clamped (db : DB) (x : CartItem) (xs : List CartItem)
    (p : Product) (h : db.products.lookup x.product = some p) (ha : p.isActive = true)
    (hs : p.stock < (x.quantity : Int)) :
    reconcileItems db (x :: xs) =
      ((⟨x.product, p.stock.toNat, p.price⟩ : CartItem) :: (reconcileItems db xs).1,
       .clamped x.product p.name x.quantity p.stock :: (reconcileItems db xs).2) := by
  rcases hr : reconcileItems db xs with ⟨its, iss⟩
  simp [reconcileItems, hr, h, ha, hs]

lemma reconcileItems_cons_good (db : DB) (x : CartItem) (xs : List CartItem)
    (p : Product) (h : db.products.lookup x.product = some p) (ha : p.isActive = true)
    (hs : ¬ p.stock < (x.quantity : Int)) :
    reconcileItems db (x :: xs) =
      (({ x with price := p.price } : CartItem) :: (reconcileItems db xs).1,
       (reconcileItems db xs).2) := by
  rcases hr : reconcileItems db xs with ⟨its, iss⟩
  simp [reconcileItems, hr, h, ha, hs]

lemma reconcile_mem_src (db : DB) (l : List CartItem) :
    ∀ jt ∈ (reconcileItems db l).1, ∃ p, db.products.lookup jt.product = some p ∧
      p.isActive = true ∧ jt.price = p.price := by
  induction l with
  | nil =>
    intro jt hjt
    simp [reconcileItems] at hjt
  | cons x xs ih =>
    intro jt hjt
    rcases hlk : db.products.lookup x.product with _ | p
    · rw [reconcileItems_cons_missing db x xs hlk] at hjt
      exact ih jt hjt
    · rcases hact : p.isActive with _ | _
      · rw [reconcileItems_cons_inactive db x xs p hlk hact] at hjt
        exact ih jt hjt
      · by_cases hst : p.stock < (x.quantity : Int)
        · rw [reconcileItems_cons_clamped db x xs p hlk hact hst] at hjt
          rcases List.mem_cons.mp hjt with h1 | h2
          · subst h1
            exact ⟨p, hlk, hact, rfl⟩
          · exact ih jt h2
        · rw [reconcileItems_cons_good db x xs p hlk hact hst] at hjt
          rcases List.mem_cons.mp hjt with h1 | h2
          · subst h1
            exact ⟨p, hlk, hact, rfl⟩
          · exact ih jt h2

lemma reconcile_nil_issues_len (db : DB) (l : List CartItem)
    (h : (reconcileItems db l).2 = []) :
    (reconcileItems db l).1.length = l.length := by
  induction l with
  | nil => rfl
  | cons x xs ih =>
    rcases hlk : db.products.lookup x.product with _ | p
    · rw [reconcileItems_cons_missing db x xs hlk] at h
      exact absurd h (by simp)
    · rcases hact : p.isActive with _ | _
      · rw [reconcileItems_cons_inactive db x xs p hlk hact] at h
        exact absurd h (by simp)
      · by_cases hst : p.stock < (x.quantity : Int)
        · rw [reconcileItems_cons_clamped db x xs p hlk hact hst] at h
          exact absurd h (by simp)
        · rw [reconcileItems_cons_good db x xs p hlk hact hst] at h ⊢
          simp [ih h]

lemma reconcile_issues_nil_iff (db : DB) (l : List CartItem) :
    (reconcileItems db l).2 = [] ↔ ∀ it ∈ l, lineOkB db it = true := by
  induction l with
  | nil => simp [reconcileItems]
  | cons x xs ih =>
    rcases hlk : db.products.lookup x.product with _ | p
    · rw [reconcileItems_cons_missing db x xs hlk]
      constructor
      · intro h
        exact absurd h (by simp)
      · intro h
        have := h x (by simp)
        rw [lineOkB, hlk] at this
        simp at this
    · rcases hact : p.isActive with _ | _
      · rw [reconcileItems_cons_inactive db x xs p hlk hact]
        constructor
        · intro h
          exact absurd h (by simp)
        · intro h
          have := h x (by simp)
          rw [lineOkB, hlk] at this
          simp [hact] at this
      · by_cases hst : p.stock < (x.quantity : Int)
        · rw [reconcileItems_cons_clamped db x xs p hlk hact hst]
          constructor
          · intro h
            exact absurd h (by simp)
          · intro h
            have := h x (by simp)
            rw [lineOkB, hlk] at this
            simp [hact] at this
            omega
        · rw [reconcileItems_cons_good db x xs p hlk hact hst]
          rw [ih]
          constructor
          · intro h it hit
            rcases List.mem_cons.mp hit with h1 | h2
            · subst h1
              rw [lineOkB, hlk]
              simp [hact]
              omega
            · exact h it h2
          · intro h it hit
            exact h it (List.mem_cons_of_mem _ hit)

lemma reconcile_missing_reported (db : DB) (l : List CartItem) :
    ∀ it ∈ l, db.products.lookup it.product = none →
      CartIssue.missing it.product ∈ (reconcileItems db l).2 := by
  induction l with
  | nil =>
    intro it hit
    simp at hit
  | cons x xs ih =>
    intro it hit hnone
    rcases List.mem_cons.mp hit with h1 | h2
    · subst h1
      rw [reconcileItems_cons_missing db it xs hnone]
      simp
    · have hmem := ih it h2 hnone
      rcases hlk : db.products.lookup x.product with _ | p
      · rw [reconcileItems_cons_missing db x xs hlk]
        exact List.mem_cons_of_mem _ hmem
      · rcases hact : p.isActive with _ | _
        · rw [reconcileItems_cons_inactive db x xs p hlk hact]
          exact List.mem_cons_of_mem _ hmem
        · by_cases hst : p.stock < (x.quantity : Int)
          · rw [reconcileItems_cons_clamped db x xs p hlk hact hst]
            exact List.mem_cons_of_mem _ hmem
          · rwa [reconcileItems_cons_good db x xs p hlk hact hst]

lemma reconcile_inactive_reported (db : DB) (l : List CartItem) :
    ∀ it ∈ l, ∀ p, db.products.lookup it.product = some p → p.isActive = false →
      CartIssue.inactive it.product p.name ∈ (reconcileItems db l).2 := by
  induction l with
  | nil =>
    intro it hit
    simp at hit
  | cons x xs ih =>
    intro it hit p hp hina
    rcases List.mem_cons.mp hit with h1 | h2
    · subst h1
      rw [reconcileItems_cons_inactive db it xs p hp hina]
      simp
    · have hmem := ih it h2 p hp hina
      rcases hlk : db.products.lookup x.product with _ | px
      · rw [reconcileItems_cons_missing db x xs hlk]
        exact List.mem_cons_of_mem _ hmem
      · rcases hact : px.isActive with _ | _
        · rw [reconcileItems_cons_inactive db x xs px hlk hact]
          exact List.mem_cons_of_mem _ hmem
        · by_cases hst : px.stock < (x.quantity : Int)
          · rw [reconcileItems_cons_clamped db x xs px hlk hact hst]
            exact List.mem_cons_of_mem _ hmem
          · rwa [reconcileItems_cons_good db x xs px hlk hact hst]

lemma reconcile_clamped_reported (db : DB) (l : List CartItem) :
    ∀ it ∈ l, ∀ p, db.products.lookup it.product = some p → p.isActive = true →
      p.stock < (it.quantity : Int) →
      ((⟨it.product, p.stock.toNat, p.price⟩ : CartItem) ∈ (reconcileItems db l).1 ∧
       CartIssue.clamped it.product p.name it.quantity p.stock ∈ (reconcileItems db l).2) := by
  induction l with
  | nil =>
    intro it hit
    simp at hit
  | cons x xs ih =>
    intro it hit p hp hact hst
    rcases List.mem_cons.mp hit with h1 | h2
    · subst h1
      rw [reconcileItems_cons_clamped db it xs p hp hact hst]
      exact ⟨by simp, by simp⟩
    · have hmem := ih it h2 p hp hact hst
      rcases hlk : db.products.lookup x.product with _ | px
      · rw [reconcileItems_cons_missing db x xs hlk]
        exact ⟨hmem.1, List.mem_cons_of_mem _ hmem.2⟩
      · rcases hactx : px.isActive with _ | _
        · rw [reconcileItems_cons_inactive db x xs px hlk hactx]
          exact ⟨hmem.1, List.mem_cons_of_mem _ hmem.2⟩
        · by_cases hstx : px.stock < (x.quantity : Int)
          · rw [reconcileItems_cons_clamped db x xs px hlk hactx hstx]
            exact ⟨List.mem_cons_of_mem _ hmem.1, List.mem_cons_of_mem _ hmem.2⟩
          · rw [reconcileItems_cons_good db x xs px hlk hactx hstx]
            exact ⟨List.mem_cons_of_mem _ hmem.1, hmem.2⟩

lemma reconcile_good_kept (db : DB) (l : List CartItem) :
    ∀ it ∈ l, ∀ p, db.products.lookup it.product = some p → p.isActive = true →
      (it.quantity : Int) ≤ p.stock →
      ({ it with price := p.price } : CartItem) ∈ (reconcileItems db l).1 := by
  induction l with
  | nil =>
    intro it hit
    simp at hit
  | cons x xs ih =>
    intro it hit p hp hact hstok
    rcases List.mem_cons.mp hit with h1 | h2
    · subst h1
      rw [reconcileItems_cons_good db it xs p hp hact (not_lt.mpr hstok)]
      simp
    · have hmem := ih it h2 p hp hact hstok
      rcases hlk : db.products.lookup x.product with _ | px
      · rwa [reconcileItems_cons_missing db x xs hlk]
      · rcases hactx : px.isActive with _ | _
        · rwa [reconcileItems_cons_inactive db x xs px hlk hactx]
        · by_cases hstx : px.stock < (x.quantity : Int)
          · rw [reconcileItems_cons_clamped db x xs px hlk hactx hstx]
            exact List.mem_cons_of_mem _ hmem
          · rw [reconcileItems_cons_good db x xs px hlk hactx hstx]
            exact List.mem_cons_of_mem _ hmem

/-- C8: validateCart on a non-empty cart returns the corrected cart together
with the validation-error list: lines whose product is missing or inactive
are dropped and reported, a line whose quantity exceeds current stock is
clamped to the available stock and reported with requested and available
quantities, every surviving line's captured price is refreshed to the
current catalog price, and the corrected cart is persisted if and only if at
least one correction (drop or clamp) was reported. -/
theorem validateCart_spec (db : DB) (u : UserId) (cart : Cart)
    (hc : db.carts.lookup u = some cart) (hne : cart.items ≠ []) :
    ∃ c2 issues db2, validateCart db u = (.ok (c2, issues), db2) ∧
      (∀ it ∈ cart.items, db.products.lookup it.product = none →
        (∀ jt ∈ c2.items, jt.product ≠ it.product) ∧
        CartIssue.missing it.product ∈ issues) ∧
      (∀ it ∈ cart.items, ∀ p, db.products.lookup it.product = some p →
        p.isActive = false →
        (∀ jt ∈ c2.items, jt.product ≠ it.product) ∧
        CartIssue.inactive it.product p.name ∈ issues) ∧
      (∀ it ∈ cart.items, ∀ p, db.products.lookup it.product = some p →
        p.isActive = true → p.stock < (it.quantity : Int) →
        (⟨it.product, p.stock.toNat, p.price⟩ : CartItem) ∈ c2.items ∧
        CartIssue.clamped it.product p.name it.quantity p.stock ∈ issues) ∧
      (∀ it ∈ cart.items, ∀ p, db.products.lookup it.product = some p →
        p.isActive = true → (it.quantity : Int) ≤ p.stock →
        ({ it with price := p.price } : CartItem) ∈ c2.items) ∧
      (∀ jt ∈ c2.items, jt.price = priceOf db jt.product) ∧
      (issues = [] ↔ ∀ it ∈ cart.items, lineOkB db it = true) ∧
      (issues = [] → db2 = db) ∧
      (issues ≠ [] → db2 = setCart db u c2) := by
  rcases hr : reconcileItems db cart.items with ⟨upd, iss⟩
  refine ⟨⟨upd⟩, iss,
    if upd.length ≠ cart.items.length ∨ iss ≠ [] then setCart db u ⟨upd⟩ else db,
    ?_, ?_, ?_, ?_, ?_, ?_, ?_, ?_, ?_⟩
  · unfold validateCart
    simp only [hc]
    rw [if_neg hne]
    simp only [hr]
  · intro it hit hnone
    constructor
    · intro jt hjt heq
      obtain ⟨p, hp, _, _⟩ := reconcile_mem_src db cart.items jt (by rw [hr]; exact hjt)
      rw [heq, hnone] at hp
      exact Option.noConfusion hp
    · have := reconcile_missing_reported db cart.items it hit hnone
      rwa [hr] at this
  · intro it hit p hp hina
    constructor
    · intro jt hjt heq
      obtain ⟨p2, hp2, hact2, _⟩ := reconcile_mem_src db cart.items jt (by rw [hr]; exact hjt)
      rw [heq, hp] at hp2
      injection hp2 with hpe
      rw [hpe] at hina
      rw [hina] at hact2
      exact Bool.noConfusion hact2
    · have := reconcile_inactive_reported db cart.items it hit p hp hina
      rwa [hr] at this
  · intro it hit p hp hact hst
    have := reconcile_clamped_reported db cart.items it hit p hp hact hst
    rw [hr] at this
    exact this
  · intro it hit p hp hact hstok
    have := reconcile_good_kept db cart.items it hit p hp hact hstok
    rwa [hr] at this
  · intro jt hjt
    obtain ⟨p, hp, _, hprice⟩ := reconcile_mem_src db cart.items jt (by rw [hr]; exact hjt)
    rw [hprice]
    unfold priceOf
    rw [hp]
    rfl
  · have := reconcile_issues_nil_iff db cart.items
    rwa [hr] at this
  · intro hiss
    rw [if_neg]
    push_neg
    constructor
    · have := reconcile_nil_issues_len db cart.items (by rw [hr]; exact hiss)
      rw [hr] at this
      exact this
    · exact hiss
  · intro hiss
    rw [if_pos (Or.inr hiss)]

/-- Witness database for validateCart: product 0 has stock 2 while the cart
line requests quantity 3, so the line is clamped and reported. -/
def wDBV : DB := ⟨[(0, ⟨"P", 25, 2, true, ["img"]⟩)], [(7, ⟨[⟨0, 3, 20⟩]⟩)], [], 0⟩

theorem validateCart_spec_witness :
    ∃ c2 issues db2, validateCart wDBV 7 = (.ok (c2, issues), db2) ∧
      (∀ it ∈ (⟨[⟨0, 3, 20⟩]⟩ : Cart).items, wDBV.products.lookup it.product = none →
        (∀ jt ∈ c2.items, jt.product ≠ it.product) ∧
        CartIssue.missing it.product ∈ issues) ∧
      (∀ it ∈ (⟨[⟨0, 3, 20⟩]⟩ : Cart).items, ∀ p, wDBV.products.lookup it.product = some p →
        p.isActive = false →
        (∀ jt ∈ c2.items, jt.product ≠ it.product) ∧
        CartIssue.inactive it.product p.name ∈ issues) ∧
      (∀ it ∈ (⟨[⟨0, 3, 20⟩]⟩ : Cart).items, ∀ p, wDBV.products.lookup it.product = some p →
        p.isActive = true → p.stock < (it.quantity : Int) →
        (⟨it.product, p.stock.toNat, p.price⟩ : CartItem) ∈ c2.items ∧
        CartIssue.clamped it.product p.name it.quantity p.stock ∈ issues) ∧
      (∀ it ∈ (⟨[⟨0, 3, 20⟩]⟩ : Cart).items, ∀ p, wDBV.products.lookup it.product = some p →
        p.isActive = true → (it.quantity : Int) ≤ p.stock →
        ({ it with price := p.price } : CartItem) ∈ c2.items) ∧
      (∀ jt ∈ c2.items, jt.price = priceOf wDBV jt.product) ∧
      (issues = [] ↔ ∀ it ∈ (⟨[⟨0, 3, 20⟩]⟩ : Cart).items, lineOkB wDBV it = true) ∧
      (issues = [] → db2 = wDBV) ∧
      (issues ≠ [] → db2 = setCart wDBV 7 c2) :=
  validateCart_spec wDBV 7 ⟨[⟨0, 3, 20⟩]⟩ rfl (by decide)

/-! ### Properties of addToCart -/

lemma cartItems_getD (db : DB) (u : UserId) :
    ((db.carts.lookup u).getD ⟨[]⟩).items = cartItemsOf db u := by
  unfold cartItemsOf
  cases h : db.carts.lookup u <;> rfl

lemma cartItemsOf_setCart (db : DB) (u : UserId) (c : Cart) :
    cartItemsOf (setCart db u c) u = c.items := by
  unfold cartItemsOf
  rw [lookup_setCart_self]
  rfl

lemma addToCart_keeps_one_line (db : DB) (u : UserId) (pid : ProductId) (q : Nat)
    (hnd : ((cartItemsOf db u).map CartItem.product).Nodup) :
    ((cartItemsOf (addToCart db u pid q).2 u).map CartItem.product).Nodup := by
  unfold addToCart
  rcases hlk : db.products.lookup pid with _ | p
  · exact hnd
  · simp only
    split
    · exact hnd
    · split
      · exact hnd
      · rcases hf : ((db.carts.lookup u).getD ⟨[]⟩).items.find?
            (fun it => it.product = pid) with _ | ex
        · simp only [hf]
          rw [cartItemsOf_setCart]
          rw [cartItems_getD] at hf ⊢
          rw [List.map_append, List.nodup_append]
          refine ⟨hnd, by simp, ?_⟩
          intro a ha hb
          simp only [List.map_cons, List.map_nil, List.mem_cons, List.not_mem_nil,
            or_false] at hb
          subst hb
          obtain ⟨it, hit, hpe⟩ := List.mem_map.mp ha
          have := List.find?_eq_none.mp hf it hit
          simp [hpe] at this
        · simp only [hf]
          split
          · exact hnd
          · rw [cartItemsOf_setCart, cartItems_getD]
            rw [List.map_map]
            have hcg : (cartItemsOf db u).map
                (CartItem.product ∘ fun it =>
                  if it.product = pid then { it with quantity := ex.quantity + q } else it) =
                (cartItemsOf db u).map CartItem.product := by
              apply List.map_congr_left
              intro a _
              by_cases hap : a.product = pid <;> simp [hap, Function.comp]
            rw [hcg]
            exact hnd

/-- C9: addToCart preserves the at-most-one-line-per-product invariant, and
adding the same product twice merges into a single line: with a cart
holding no line for the product, a first add of q1 appends a line capturing
the current price, and a second add of q2 merges to a single line of
quantity q1+q2 when the merged quantity fits the current stock, and is
rejected (state unchanged) when the merged quantity would exceed stock. -/
theorem addToCart_merges (db : DB) (u : UserId) (pid : ProductId) (p : Product)
    (q1 q2 : Nat) (hp : db.products.lookup pid = some p) (hact : p.isActive = true)
    (hq1pos : 1 ≤ q1) (hq1 : (q1 : Int) ≤ p.stock)
    (hnold : ∀ it ∈ cartItemsOf db u, it.product ≠ pid) :
    (∀ (db0 : DB) (u0 : UserId) (pid0 : ProductId) (q0 : Nat),
      ((cartItemsOf db0 u0).map CartItem.product).Nodup →
      ((cartItemsOf (addToCart db0 u0 pid0 q0).2 u0).map CartItem.product).Nodup) ∧
    ∃ db1, addToCart db u pid q1 =
        (.ok ⟨cartItemsOf db u ++ [⟨pid, q1, p.price⟩]⟩, db1) ∧
      cartItemsOf db1 u = cartItemsOf db u ++ [⟨pid, q1, p.price⟩] ∧
      (((q1 + q2 : Nat) : Int) ≤ p.stock →
        ∃ db2, addToCart db1 u pid q2 =
            (.ok ⟨cartItemsOf db u ++ [⟨pid, q1 + q2, p.price⟩]⟩, db2) ∧
          cartItemsOf db2 u = cartItemsOf db u ++ [⟨pid, q1 + q2, p.price⟩] ∧
          (cartItemsOf db2 u).filter (fun it => it.product = pid) =
            [⟨pid, q1 + q2, p.price⟩]) ∧
      ((q2 : Int) ≤ p.stock → p.stock < ((q1 + q2 : Nat) : Int) →
        addToCart db1 u pid q2 = (.error (.mergeStockLimit (p.stock - (q1 : Int))), db1)) := by
  refine ⟨addToCart_keeps_one_line, ?_⟩
  have hfind1 : (cartItemsOf db u).find? (fun it => it.product = pid) = none :=
    List.find?_eq_none.mpr (fun it hit => by simp [hnold it hit])
  have h1 : addToCart db u pid q1 =
      (.ok ⟨cartItemsOf db u ++ [⟨pid, q1, p.price⟩]⟩,
       setCart db u ⟨cartItemsOf db u ++ [⟨pid, q1, p.price⟩]⟩) := by
    unfold addToCart
    simp only [hp]
    rw [if_neg (by simp [hact]), if_neg (not_lt.mpr hq1)]
    rw [show ((db.carts.lookup u).getD ⟨[]⟩).items = cartItemsOf db u from
      cartItems_getD db u] at *
    rw [hfind1]
  set db1 := setCart db u ⟨cartItemsOf db u ++ [⟨pid, q1, p.price⟩]⟩ with hdb1
  have hitems1 : cartItemsOf db1 u = cartItemsOf db u ++ [⟨pid, q1, p.price⟩] := by
    rw [hdb1, cartItemsOf_setCart]
  have hp2 : db1.products.lookup pid = some p := by
    rw [hdb1, setCart_products]
    exact hp
  have hfind2 : (cartItemsOf db1 u).find? (fun it => it.product = pid) =
      some ⟨pid, q1, p.price⟩ := by
    rw [hitems1, List.find?_append, hfind1]
    simp [List.find?]
  refine ⟨db1, h1, hitems1, ?_, ?_⟩
  · intro hsum
    have hq2le : (q2 : Int) ≤ p.stock := by
      push_cast at hsum
      omega
    have hmap : (cartItemsOf db1 u).map
        (fun it => if it.product = pid then
          { it with quantity := (⟨pid, q1, p.price⟩ : CartItem).quantity + q2 } else it) =
        cartItemsOf db u ++ [⟨pid, q1 + q2, p.price⟩] := by
      rw [hitems1, List.map_append]
      congr 1
      · have hcg : (cartItemsOf db u).map
            (fun it => if it.product = pid then
              { it with quantity := (⟨pid, q1, p.price⟩ : CartItem).quantity + q2 } else it) =
            (cartItemsOf db u).map id := by
          apply List.map_congr_left
          intro a ha
          simp [hnold a ha]
        rw [hcg, List.map_id]
      · simp
    have h2 : addToCart db1 u pid q2 =
        (.ok ⟨cartItemsOf db u ++ [⟨pid, q1 + q2, p.price⟩]⟩,
         setCart db1 u ⟨cartItemsOf db u ++ [⟨pid, q1 + q2, p.price⟩]⟩) := by
      unfold addToCart
      simp only [hp2]
      rw [if_neg (by simp [hact]), if_neg (not_lt.mpr hq2le)]
      rw [show ((db1.carts.lookup u).getD ⟨[]⟩).items = cartItemsOf db1 u from
        cartItems_getD db1 u] at *
      rw [hfind2]
      simp only
      rw [if_neg (not_lt.mpr (by push_cast at hsum ⊢; omega))]
      rw [hmap]
    refine ⟨setCart db1 u ⟨cartItemsOf db u ++ [⟨pid, q1 + q2, p.price⟩]⟩, h2, ?_, ?_⟩
    · rw [cartItemsOf_setCart]
    · rw [cartItemsOf_setCart, List.filter_append]
      have h0 : (cartItemsOf db u).filter (fun it => it.product = pid) = [] :=
        List.filter_eq_nil_iff.mpr (fun a ha => by simp [hnold a ha])
      rw [h0]
      simp [List.filter]
  · intro hq2le hrej
    unfold addToCart
    simp only [hp2]
    rw [if_neg (by simp [hact]), if_neg (not_lt.mpr hq2le)]
    rw [show ((db1.carts.lookup u).getD ⟨[]⟩).items = cartItemsOf db1 u from
      cartItems_getD db1 u] at *
    rw [hfind2]
    simp only
    rw [if_pos (by push_cast at hrej ⊢; omega)]

/-- Witness for the add-twice scenario: stock 10, add quantity 2 then 3. -/
def wDBAdd : DB := ⟨[(5, ⟨"Q", 4, 10, true, []⟩)], [], [], 0⟩

theorem addToCart_merges_witness :
    (∀ (db0 : DB) (u0 : UserId) (pid0 : ProductId) (q0 : Nat),
      ((cartItemsOf db0 u0).map CartItem.product).Nodup →
      ((cartItemsOf (addToCart db0 u0 pid0 q0).2 u0).map CartItem.product).Nodup) ∧
    ∃ db1, addToCart wDBAdd 3 5 2 =
        (.ok ⟨cartItemsOf wDBAdd 3 ++ [⟨5, 2, 4⟩]⟩, db1) ∧
      cartItemsOf db1 3 = cartItemsOf wDBAdd 3 ++ [⟨5, 2, 4⟩] ∧
      (((2 + 3 : Nat) : Int) ≤ 10 →
        ∃ db2, addToCart db1 3 5 3 =
            (.ok ⟨cartItemsOf wDBAdd 3 ++ [⟨5, 2 + 3, 4⟩]⟩, db2) ∧
          cartItemsOf db2 3 = cartItemsOf wDBAdd 3 ++ [⟨5, 2 + 3, 4⟩] ∧
          (cartItemsOf db2 3).filter (fun it => it.product = 5) = [⟨5, 2 + 3, 4⟩]) ∧
      ((3 : Int) ≤ 10 → (10 : Int) < ((2 + 3 : Nat) : Int) →
        addToCart db1 3 5 3 = (.error (.mergeStockLimit ((10 : Int) - (2 : Int))), db1)) :=
  addToCart_merges wDBAdd 3 5 ⟨"Q", 4, 10, true, []⟩ 2 3 rfl rfl (by decide) (by decide)
    (by decide)

end ECom
